import Mathlib

/-!
Verification of the `@cross/workers` job-dispatch core against its
specification. The embedding below follows the two source files that hold the
coordination logic: `src/src/worker_pool.ts` (the `WorkerPool` coordinator) and
`src/src/setup_worker.ts` (the worker-side dispatch loop). Pure bookkeeping is
embedded as Lean functions on explicit state; the atomic synchronous segments
of the single-threaded coordinator become events of a small-step semantics, and
JS values crossing the message boundary are modelled by a small JS-value type.
-/

set_option maxHeartbeats 1000000
set_option linter.unusedVariables false

namespace CrossWorkers

/-- An execution-unit handle as the coordinator sees it. `createWorker` returns
a handle on which `init` installs a message handler and an error handler
(worker_pool.ts lines 65 and 95); we record only whether those two handlers are
installed. -/
structure WUnit where
  onmessageSet : Bool
  onerrorSet : Bool
deriving DecidableEq

/-- Coordinator state of `WorkerPool` (worker_pool.ts lines 17 to 24): the
`workers` list, the round-robin cursor `nextIndex`, the `inflight` counter, the
`maxInflight` bound, the initialization flags used by `init` and `close`, and
the `hasPostedJobs` wave flag. `inflight` is an `Int` because the JS counter is
a plain number that unguarded decrements can drive below zero. `fires` is
instrumentation counting how many times `checkAllComplete` invoked the
registered `onAllComplete` callback; it mirrors no source field. -/
structure PoolState where
  workers : List WUnit
  nextIndex : Nat
  inflight : Int
  maxInflight : Int
  initDone : Bool
  initPromiseSet : Bool
  hasPostedJobs : Bool
  fires : Nat
deriving DecidableEq

/-- Atomic coordinator segments. The coordinator runs on one logical thread,
so each of these runs without preemption: `post` is the synchronous tail of
`WorkerPool.post` after the admission gate resolved (lines 147 to 155);
`msgResult` and `msgError` are the two branches of the `onmessage` listener
(lines 65 to 93), carrying the `seq` field of the inbound message when the
message has one; `unitFault` is the `onerror` listener (lines 95 to 99), the
index recording which unit faulted (the handler itself never uses it). -/
inductive PoolEvent where
  | post
  | msgResult (seq : Option Int)
  | msgError (seq : Option Int)
  | unitFault (i : Nat)
deriving DecidableEq

/-- Embedding of `WorkerPool.checkAllComplete` (worker_pool.ts lines 161 to
169) with a registered `onAllComplete`: when `hasPostedJobs` is set and
`inflight` is exactly zero, the flag is cleared and the callback invoked (the
`fires` counter records the invocation); otherwise nothing happens. -/
def checkAllComplete (s : PoolState) : PoolState :=
  if s.hasPostedJobs && s.inflight == 0 then
    { s with hasPostedJobs := false, fires := s.fires + 1 }
  else s

/-- Effect of one coordinator segment on the pool state. `post` reads the
cursor, advances it modulo the unit count, increments `inflight` and arms the
wave (lines 147 to 151). The three completion-type events decrement `inflight`
and then run `checkAllComplete` (lines 73 to 99); none of them touches the
`workers` list or the cursor. -/
def stepEv (s : PoolState) : PoolEvent → PoolState
  | .post =>
      { s with
        nextIndex := (s.nextIndex + 1) % s.workers.length,
        inflight := s.inflight + 1,
        hasPostedJobs := true }
  | .msgResult _ => checkAllComplete { s with inflight := s.inflight - 1 }
  | .msgError _ => checkAllComplete { s with inflight := s.inflight - 1 }
  | .unitFault _ => checkAllComplete { s with inflight := s.inflight - 1 }

/-- Runs a trace of coordinator segments from a state. -/
def runEvents (s : PoolState) : List PoolEvent → PoolState
  | [] => s
  | ev :: evs => runEvents (stepEv s ev) evs

/-- State of a pool right after construction and a completed `init()`: `W`
units with both handlers installed (lines 60 to 104), cursor `0`, nothing in
flight, wave unarmed. The `maxInflight` bound defaults to `2 * W` in the
constructor (line 44) but any configured bound is allowed here. -/
def initState (W : Nat) (maxIF : Int) : PoolState :=
  { workers := List.replicate W ⟨true, true⟩
    nextIndex := 0
    inflight := 0
    maxInflight := maxIF
    initDone := true
    initPromiseSet := true
    hasPostedJobs := false
    fires := 0 }

/-- Segments of the admission path of `post`, as the JS event loop schedules
them. `await this.waitForCapacity()` (worker_pool.ts line 145) resumes `post`
in a later microtask than the one in which the polling loop of
`waitForCapacity` (lines 122 to 127) observed `inflight < maxInflight`, so
segments of other callers can run between the two. `gatePass c` is the
instant the wait loop of caller `c` exits; `dispatch c` is the synchronous
tail of `post` for caller `c` (lines 147 to 155), which increments
`inflight`; `complete` is an inbound worker message decrementing it. -/
inductive PostSeg where
  | gatePass (c : Nat)
  | dispatch (c : Nat)
  | complete
deriving DecidableEq

/-- Pool state reached by a schedule of post segments: a gate check mutates
nothing, a dispatch runs the post tail, a completion runs the result branch
of the message listener. -/
def runSegs (s : PoolState) : List PostSeg → PoolState
  | [] => s
  | PostSeg.gatePass _ :: rest => runSegs s rest
  | PostSeg.dispatch _ :: rest => runSegs (stepEv s PoolEvent.post) rest
  | PostSeg.complete :: rest => runSegs (stepEv s (PoolEvent.msgResult none)) rest

/-- Whether a schedule of post segments is one the source can produce with
every caller honoring the admission gate: each `gatePass c` is truthful — the
wait-loop exit condition `inflight < maxInflight` held at its instant — and
each `dispatch c` is performed by a caller whose own gate pass happened
earlier in the schedule and is consumed by the dispatch. This is exactly
"every caller awaited `waitForCapacity` before its send", with the microtask
boundary between the check and the increment kept. `passed` accumulates the
callers currently past their gate check. -/
def segsHonorGate (s : PoolState) (passed : List Nat) : List PostSeg → Bool
  | [] => true
  | PostSeg.gatePass c :: rest =>
      decide (s.inflight < s.maxInflight) && segsHonorGate s (c :: passed) rest
  | PostSeg.dispatch c :: rest =>
      passed.contains c &&
        segsHonorGate (stepEv s PoolEvent.post) (passed.erase c) rest
  | PostSeg.complete :: rest =>
      segsHonorGate (stepEv s (PoolEvent.msgResult none)) passed rest

/-- A trace is well matched when every completion-type segment (an inbound
worker message or a unit fault) runs from a state with `inflight > 0`, which
holds in any execution where completions only arrive for jobs actually
dispatched. -/
def wellMatched (s : PoolState) : List PoolEvent → Bool
  | [] => true
  | ev :: evs =>
    (match ev with
     | .post => true
     | _ => decide (0 < s.inflight)) && wellMatched (stepEv s ev) evs

/-- Number of waves completed along a trace. Per the glossary a wave spans
from the first post after the pool is idle until `inflight` next returns to
zero, so a wave completes exactly when a completion-type segment brings
`inflight` from one to zero. -/
def wavesCompleted (s : PoolState) : List PoolEvent → Nat
  | [] => 0
  | ev :: evs =>
    (match ev with
     | .post => 0
     | _ => if s.inflight == 1 then 1 else 0) + wavesCompleted (stepEv s ev) evs

/-- Unit indices the posts of a trace dispatch to, in order: `post` reads
`workers[nextIndex]` (worker_pool.ts line 147), so the dispatch target of a
post is the cursor value at its own segment. -/
def postTargets (s : PoolState) : List PoolEvent → List Nat
  | [] => []
  | .post :: evs => s.nextIndex :: postTargets (stepEv s .post) evs
  | ev :: evs => postTargets (stepEv s ev) evs

/-- Callback invocations observable from one coordinator segment. -/
inductive CbCall where
  | errCall (seq : Option Int)
  | resCall (seq : Option Int)
  | allCompleteCall
deriving DecidableEq

/-- Callback invocations of `checkAllComplete` given the state it runs on
(already decremented): one `onAllComplete` invocation when it fires. -/
def completionCalls (s1 : PoolState) : List CbCall :=
  if s1.hasPostedJobs && s1.inflight == 0 then [CbCall.allCompleteCall] else []

/-- Callback invocations of one coordinator segment, in program order. The
`msgError` branch calls `onError` with the seq of the message (line 76), the
`msgResult` branch calls `onResult` (lines 86 to 91), and the `onerror`
listener calls `onError` with seq `undefined` (line 97); each then runs
`checkAllComplete` on the decremented state. -/
def eventCalls (s : PoolState) : PoolEvent → List CbCall
  | .post => []
  | .msgResult q => CbCall.resCall q :: completionCalls { s with inflight := s.inflight - 1 }
  | .msgError q => CbCall.errCall q :: completionCalls { s with inflight := s.inflight - 1 }
  | .unitFault _ => CbCall.errCall none :: completionCalls { s with inflight := s.inflight - 1 }

/-- Outcome of `worker.postMessage({type: "CLOSE", payload: {}})` for one
unit: sending to an already-terminated unit throws. -/
def sendShutdown (dead : Bool) : Except String Unit :=
  if dead then Except.error "worker already terminated" else Except.ok ()

/-- Shutdown-notice loop of `close` (worker_pool.ts lines 183 to 189): each
`postMessage` is wrapped in a `try` with an empty `catch`, so a unit whose
send throws is skipped and the loop continues; `dead i` says whether the unit
at index `i` is already dead. -/
def notifyLoop (dead : Nat → Bool) : Nat → List WUnit → Except String Unit
  | _, [] => Except.ok ()
  | i, _ :: ws =>
    match sendShutdown (dead i) with
    | Except.ok _ => notifyLoop dead (i + 1) ws
    | Except.error _ => notifyLoop dead (i + 1) ws

/-- Embedding of `WorkerPool.close` (worker_pool.ts lines 175 to 205) from the
point after the optional drain wait: notify every unit (failures swallowed),
terminate them, then clear the unit list and reset both initialization flags.
The drain wait itself is `waitForCompletion` (lines 132 to 137), whose loop
exits only when `inflight > 0` fails; theorems state it as a hypothesis on the
state `close` proceeds from. An `Except.error` result would model an exception
propagating out of the notification loop; the theorems show it never occurs. -/
def closeRun (s : PoolState) (dead : Nat → Bool) : Except String PoolState :=
  match notifyLoop dead 0 s.workers with
  | Except.error e => Except.error e
  | Except.ok _ =>
      Except.ok { s with workers := [], initDone := false, initPromiseSet := false }

/-- Phase of the idempotent initialization of `WorkerPool.init`
(worker_pool.ts lines 50 to 107): not yet started, body in progress with `k`
units created so far, or finished (`isInitialized` set). -/
inductive InitPhase where
  | notStarted
  | inProgress (created : Nat)
  | done
deriving DecidableEq

/-- Initialization view: the phase, the `workers` array, and a ghost counter
of every unit creation over the whole history (it counts calls to
`createWorker` and mirrors no source field). -/
structure InitView where
  phase : InitPhase
  units : List WUnit
  totalCreated : Nat
deriving DecidableEq

/-- Events of the initialization protocol: `call` is the synchronous prefix of
one `init()` invocation (lines 51 to 60); `stepCreate` is one loop iteration
of the body completing its `createWorker` await, installing both handlers and
pushing the unit (lines 62 to 101); `finishBody` is the body finishing after
`W` iterations and setting `isInitialized` (line 103). -/
inductive InitEvent where
  | call
  | stepCreate
  | finishBody
deriving DecidableEq

/-- Effect of one initialization event for a pool configured with `W` units.
A `call` finding `isInitialized` set returns at once (lines 51 to 53); one
finding `initPromise` set awaits that promise and returns (lines 55 to 58);
otherwise it starts the body, which synchronously resets `workers` to empty
(line 61) before its first await. Body steps are guarded by the loop bound
(line 62) and can only occur while a body is in progress. -/
def initStep (W : Nat) (v : InitView) : InitEvent → InitView
  | .call =>
    match v.phase with
    | .notStarted => { v with phase := InitPhase.inProgress 0, units := [] }
    | _ => v
  | .stepCreate =>
    match v.phase with
    | .inProgress k =>
      if k < W then
        { phase := InitPhase.inProgress (k + 1)
          units := v.units ++ [⟨true, true⟩]
          totalCreated := v.totalCreated + 1 }
      else v
    | _ => v
  | .finishBody =>
    match v.phase with
    | .inProgress k => if k = W then { v with phase := InitPhase.done } else v
    | _ => v

/-- Runs a trace of initialization events. -/
def runInit (W : Nat) (v : InitView) : List InitEvent → InitView
  | [] => v
  | ev :: evs => runInit W (initStep W v ev) evs

/-- View of a freshly constructed pool: no units, initialization not started
(constructor, worker_pool.ts lines 42 to 45). -/
def freshInit : InitView :=
  { phase := InitPhase.notStarted, units := [], totalCreated := 0 }

/-- Invariant tying the initialization phase to the units created. -/
def InitInv (W : Nat) (v : InitView) : Prop :=
  (v.phase = InitPhase.notStarted → v.units = [] ∧ v.totalCreated = 0) ∧
  (∀ k, v.phase = InitPhase.inProgress k →
    v.units.length = k ∧ v.totalCreated = k ∧ k ≤ W) ∧
  (v.phase = InitPhase.done → v.units.length = W ∧ v.totalCreated = W) ∧
  (∀ u, u ∈ v.units → u.onmessageSet = true ∧ u.onerrorSet = true)

/-- Model of a JS value crossing the message boundary: undefined, a number, a
string, a boolean, or an object given by its fields in order. -/
inductive JVal where
  | jundefined
  | jnum (n : Int)
  | jstr (s : String)
  | jbool (b : Bool)
  | jobj (fields : List (String × JVal))

/-- JS property read `v[k]`: the field value when `v` is an object carrying
the field, and `undefined` otherwise. -/
def JVal.get (v : JVal) (k : String) : JVal :=
  match v with
  | .jobj fields =>
    match fields.find? (fun p => p.fst == k) with
    | some p => p.snd
    | none => .jundefined
  | _ => .jundefined

/-- Whether a value is `undefined`. -/
def JVal.isUndefined : JVal → Bool
  | .jundefined => true
  | _ => false

/-- JS truthiness, as used by `data.message || "Worker error"`. -/
def JVal.truthy : JVal → Bool
  | .jundefined => false
  | .jnum n => !(n == 0)
  | .jstr s => !(s == "")
  | .jbool b => b
  | .jobj _ => true

/-- Outcome of running the user handler on one job, as `handleMessage` in
setup_worker.ts observes it after awaiting: a returned (resolved) value, with
`undefined` standing for no value, or a failure carrying its description. -/
inductive HRes where
  | ret (v : JVal)
  | fail (msg : String)

/-- Embedding of `setupWorker.handleMessage` composed with `processMessage`
(setup_worker.ts lines 28 to 55): run the handler on the inbound data; a
defined result is posted back as the reply exactly as the handler produced it,
a failure becomes `{seq: data.seq, type: "ERROR", message}`, and an undefined
result produces no reply at all. -/
def handleMessage (data : JVal) (h : HRes) : Option JVal :=
  match h with
  | .ret v => if v.isUndefined then none else some v
  | .fail m =>
    some (JVal.jobj
      [("seq", data.get "seq"), ("type", JVal.jstr "ERROR"), ("message", JVal.jstr m)])

/-- Stated form of the specification sentence on the success path, written for
comparison with `handleMessage`: it wraps a defined handler value as
`{seq, payload: value}` instead of sending the value itself. This definition
follows the words of the spec, not the source; `handleMessage` above is the
source behavior. -/
def handleMessageSpec (data : JVal) (h : HRes) : Option JVal :=
  match h with
  | .ret v =>
    if v.isUndefined then none
    else some (JVal.jobj [("seq", data.get "seq"), ("payload", v)])
  | .fail m =>
    some (JVal.jobj
      [("seq", data.get "seq"), ("type", JVal.jstr "ERROR"), ("message", JVal.jstr m)])

/-- Whether an inbound message takes the ERROR branch of the coordinator
listener: the JS test is `data.type === "ERROR"` (worker_pool.ts line 73). -/
def isErrorTagged (d : JVal) : Bool :=
  match d.get "type" with
  | .jstr s => s == "ERROR"
  | _ => false

/-- Callback invocation made by the coordinator for one inbound message:
`onError` receives the Error built from `data.message || "Worker error"` plus
the raw `data.seq`; `onResult` receives the `WorkerResult`, whose fields are
recorded here. -/
inductive CbObs where
  | errCall (seq : JVal) (emsg : JVal)
  | resCall (seq : JVal) (payload : JVal)

/-- Embedding of the `onmessage` listener installed by `init` (worker_pool.ts
lines 65 to 93), restricted to the callback it invokes: an ERROR-tagged
message yields `onError(new Error(data.message || "Worker error"), data.seq)`;
any other message yields `onResult({seq: data.seq ?? -1, payload: ev.data})`,
the payload being the entire inbound message object. Both branches also
decrement `inflight` once and run `checkAllComplete`; that bookkeeping is the
`msgError` and `msgResult` events of the pool semantics above. -/
def onmessageObs (d : JVal) : CbObs :=
  if isErrorTagged d then
    CbObs.errCall (d.get "seq")
      (if (d.get "message").truthy then d.get "message" else JVal.jstr "Worker error")
  else
    CbObs.resCall (if (d.get "seq").isUndefined then JVal.jnum (-1) else d.get "seq") d

/-- Message `post` sends to the chosen unit for a job (worker_pool.ts lines
152 to 155): `{seq: job.seq, payload: job.payload}`. -/
def dispatchMsg (seq : Int) (payload : JVal) : JVal :=
  JVal.jobj [("seq", JVal.jnum seq), ("payload", payload)]

/-- Reply the worker-side loop posts for the job with the given seq, when the
handler outcome for that seq is `f seq` and its payload is `pl seq`. -/
def workerReply (f : Int → HRes) (pl : Int → JVal) (seq : Int) : Option JVal :=
  handleMessage (dispatchMsg seq (pl seq)) (f seq)

/-- Coordinator callback invocations over a whole wave: each job of the wave
is dispatched, the worker loop produces a reply (or none), and every reply is
handled by the `onmessage` listener. -/
def waveObs (f : Int → HRes) (pl : Int → JVal) (seqs : List Int) : List CbObs :=
  (seqs.filterMap (workerReply f pl)).map onmessageObs

/-- Whether an observation is an `onError` call carrying the numeric seq `n`. -/
def CbObs.isErrWithSeq (n : Int) : CbObs → Bool
  | .errCall (.jnum m) _ => m == n
  | _ => false

/-- Whether an observation is an `onResult` call whose result seq is the
number `n`. -/
def CbObs.isResWithSeq (n : Int) : CbObs → Bool
  | .resCall (.jnum m) _ => m == n
  | _ => false

/-- Handler outcome of a job that completes normally with seq `j`: a defined
returned value that is not ERROR-tagged and carries `seq: j`, as every
well-formed worker reply in this repository does (see tests/test_worker.ts). -/
def normalRet (j : Int) : HRes → Prop
  | .ret v => v.isUndefined = false ∧ isErrorTagged v = false ∧ v.get "seq" = JVal.jnum j
  | .fail _ => False

/-- Behavior of one user-callback invocation as JS sees it: return normally
(including returning a promise that later resolves), return a promise that
later rejects with a description, or throw synchronously during the call. -/
inductive CbBehavior where
  | retOk
  | retRejected (e : String)
  | throwSync (e : String)
deriving DecidableEq

/-- Route a callback failure takes at its delivery site. -/
inductive FaultRoute where
  | noFault
  | redirected (e : String) (seq : Option Int)
  | escaped (e : String)
deriving DecidableEq

/-- Embedding of `Promise.resolve(this.onResult(result)).catch(err =>
this.onError?.(err, result.seq))` (worker_pool.ts lines 86 to 91). JS
evaluates the call `this.onResult(result)` before `Promise.resolve` is ever
entered, so a synchronous throw aborts the whole statement with no catch
attached and escapes the listener; only a rejected promise reaches the
`.catch` and is redirected to `onError` with the seq of the result. -/
def deliverResult (seq : Int) (b : CbBehavior) : FaultRoute :=
  match b with
  | .retOk => FaultRoute.noFault
  | .retRejected e => FaultRoute.redirected e (some seq)
  | .throwSync e => FaultRoute.escaped e

/-- Embedding of `Promise.resolve(this.onAllComplete()).catch(err =>
this.onError?.(err, undefined))` in `checkAllComplete` (worker_pool.ts lines
165 to 167), with the same JS evaluation order as `deliverResult`. -/
def deliverAllComplete (b : CbBehavior) : FaultRoute :=
  match b with
  | .retOk => FaultRoute.noFault
  | .retRejected e => FaultRoute.redirected e none
  | .throwSync e => FaultRoute.escaped e

theorem checkAllComplete_inflight (s : PoolState) :
    (checkAllComplete s).inflight = s.inflight := by
  unfold checkAllComplete; split <;> rfl

theorem checkAllComplete_workers (s : PoolState) :
    (checkAllComplete s).workers = s.workers := by
  unfold checkAllComplete; split <;> rfl

theorem checkAllComplete_maxInflight (s : PoolState) :
    (checkAllComplete s).maxInflight = s.maxInflight := by
  unfold checkAllComplete; split <;> rfl

theorem checkAllComplete_nextIndex (s : PoolState) :
    (checkAllComplete s).nextIndex = s.nextIndex := by
  unfold checkAllComplete; split <;> rfl

theorem stepEv_maxInflight (s : PoolState) (ev : PoolEvent) :
    (stepEv s ev).maxInflight = s.maxInflight := by
  cases ev <;> simp [stepEv, checkAllComplete_maxInflight]

theorem stepEv_workers (s : PoolState) (ev : PoolEvent) :
    (stepEv s ev).workers = s.workers := by
  cases ev <;> simp [stepEv, checkAllComplete_workers]

theorem runEvents_cons (s : PoolState) (ev : PoolEvent) (evs : List PoolEvent) :
    runEvents s (ev :: evs) = runEvents (stepEv s ev) evs := rfl

theorem runEvents_append (s : PoolState) (l1 l2 : List PoolEvent) :
    runEvents s (l1 ++ l2) = runEvents (runEvents s l1) l2 := by
  induction l1 generalizing s with
  | nil => rfl
  | cons ev l1 ih => simpa [runEvents_cons] using ih (stepEv s ev)

theorem runEvents_workers (s : PoolState) (evs : List PoolEvent) :
    (runEvents s evs).workers = s.workers := by
  induction evs generalizing s with
  | nil => rfl
  | cons ev evs ih => rw [runEvents_cons, ih, stepEv_workers]

theorem runEvents_maxInflight (s : PoolState) (evs : List PoolEvent) :
    (runEvents s evs).maxInflight = s.maxInflight := by
  induction evs generalizing s with
  | nil => rfl
  | cons ev evs ih => rw [runEvents_cons, ih, stepEv_maxInflight]

/-- C1 (code bug): with one unit and `maxInflight = 1`, two concurrent `post`
calls schedule as gate check of caller 0, gate check of caller 1, dispatch of
caller 0, dispatch of caller 1 — the microtask FIFO order when the second
call does not await the first. Both callers honor the admission gate of
`waitForCapacity` (both checks truthfully saw `inflight = 0 < 1`), yet
`inflight` ends at 2, exceeding `maxInflight = 1`: the microtask boundary
between the gate check and the increment lets every concurrently admitted
caller increment past the bound, against the stated invariant. -/
theorem admission_gate_race :
    segsHonorGate (initState 1 1) []
      [PostSeg.gatePass 0, PostSeg.gatePass 1,
       PostSeg.dispatch 0, PostSeg.dispatch 1] = true ∧
    (runSegs (initState 1 1)
      [PostSeg.gatePass 0, PostSeg.gatePass 1,
       PostSeg.dispatch 0, PostSeg.dispatch 1]).inflight = 2 ∧
    (initState 1 1).maxInflight = 1 := by decide

theorem cursor_after_posts (W : Nat) (maxIF : Int) (hW : 1 ≤ W) (k : Nat) :
    (runEvents (initState W maxIF) (List.replicate k PoolEvent.post)).nextIndex = k % W := by
  induction k with
  | zero => simp [runEvents, initState]
  | succ m ih =>
    have hlen : (runEvents (initState W maxIF)
        (List.replicate m PoolEvent.post)).workers.length = W := by
      rw [runEvents_workers]; simp [initState]
    rw [List.replicate_succ', runEvents_append, runEvents_cons]
    show (stepEv (runEvents (initState W maxIF) (List.replicate m PoolEvent.post))
      PoolEvent.post).nextIndex = (m + 1) % W
    simp only [stepEv, hlen, ih]
    exact (Nat.mod_modEq m W).add_right 1

/-- C2: for a pool of `W ≥ 1` units, the unit selected for the k-th post
counting from zero since initialization is the unit at index `k mod W` (the
cursor read by the k-th post is its value after exactly `k` posts), and every
dispatch advances the cursor by one modulo `W`. Completions never touch the
cursor, so the first conjunct needs no interleaving condition at all. -/
theorem round_robin_dispatch (W k : Nat) (maxIF : Int) (hW : 1 ≤ W) :
    (runEvents (initState W maxIF) (List.replicate k PoolEvent.post)).nextIndex = k % W ∧
    (∀ s : PoolState, s.workers.length = W →
      (stepEv s PoolEvent.post).nextIndex = (s.nextIndex + 1) % W) := by
  refine ⟨cursor_after_posts W maxIF hW k, ?_⟩
  intro s hlen
  simp [stepEv, hlen]

/-- Witness for C2: with three units, the fifth post (k = 5) dispatches to
unit `5 mod 3 = 2`. -/
theorem round_robin_dispatch_witness :
    1 ≤ 3 ∧
    (runEvents (initState 3 6) (List.replicate 5 PoolEvent.post)).nextIndex = 5 % 3 :=
  ⟨by decide, (round_robin_dispatch 3 5 6 (by decide)).1⟩

theorem checkAllComplete_of_fire (s : PoolState) (hp : s.hasPostedJobs = true)
    (hz : s.inflight = 0) :
    checkAllComplete s = { s with hasPostedJobs := false, fires := s.fires + 1 } := by
  unfold checkAllComplete
  rw [hp, hz]
  simp

theorem checkAllComplete_of_nonzero (s : PoolState) (hz : s.inflight ≠ 0) :
    checkAllComplete s = s := by
  unfold checkAllComplete
  have hb : (s.inflight == 0) = false := by simpa using hz
  rw [hb]
  simp

theorem c3_completion_aux (s : PoolState) (ev : PoolEvent) (evs : List PoolEvent)
    (hstep0 : stepEv s ev = checkAllComplete { s with inflight := s.inflight - 1 })
    (hcontrib : wavesCompleted s (ev :: evs)
      = (if s.inflight == 1 then 1 else 0) + wavesCompleted (stepEv s ev) evs)
    (hpos : 0 < s.inflight)
    (hp1 : 0 < s.inflight → s.hasPostedJobs = true)
    (hw2 : wellMatched (stepEv s ev) evs = true)
    (ih : ∀ s2 : PoolState, 0 ≤ s2.inflight → (0 < s2.inflight → s2.hasPostedJobs = true) →
      wellMatched s2 evs = true →
      (runEvents s2 evs).fires = s2.fires + wavesCompleted s2 evs) :
    (runEvents s (ev :: evs)).fires = s.fires + wavesCompleted s (ev :: evs) := by
  rw [runEvents_cons, hcontrib]
  have hp : s.hasPostedJobs = true := hp1 hpos
  by_cases heq : s.inflight = 1
  · have hstep : stepEv s ev
        = { s with inflight := 0, hasPostedJobs := false, fires := s.fires + 1 } := by
      rw [hstep0, checkAllComplete_of_fire _ (by simpa using hp) (by simp [heq])]
      simp [heq]
    rw [hstep]
    have hrec := ih { s with inflight := 0, hasPostedJobs := false, fires := s.fires + 1 }
      (by simp) (by simp) (by rw [← hstep]; exact hw2)
    rw [hrec]
    simp [heq]
    omega
  · have hstep : stepEv s ev = { s with inflight := s.inflight - 1 } := by
      rw [hstep0]
      refine checkAllComplete_of_nonzero _ ?_
      show s.inflight - 1 ≠ 0
      omega
    rw [hstep]
    have hrec := ih { s with inflight := s.inflight - 1 }
      (by show (0:Int) ≤ s.inflight - 1; omega) (fun _ => hp) (by rw [← hstep]; exact hw2)
    rw [hrec]
    simp [heq]

/-- C3: along any trace of posts and completions in which completions only
arrive while jobs are in flight, starting from a state satisfying the pool
invariant (a nonnegative counter, and the wave armed whenever something is in
flight), the registered `onAllComplete` callback fires exactly once per
completed wave: the number of firings added by the trace equals the number of
times `inflight` returns from one to zero. In particular posting three jobs
and draining fires it once, and posting a fourth and draining fires it a
second time (see the witness). -/
theorem all_complete_fires_once_per_wave (s : PoolState) (evs : List PoolEvent)
    (h0 : 0 ≤ s.inflight) (h1 : 0 < s.inflight → s.hasPostedJobs = true)
    (hw : wellMatched s evs = true) :
    (runEvents s evs).fires = s.fires + wavesCompleted s evs := by
  induction evs generalizing s with
  | nil => simp [runEvents, wavesCompleted]
  | cons ev evs ih =>
    cases ev with
    | post =>
      have hw2 : (true && wellMatched (stepEv s PoolEvent.post) evs) = true := hw
      rw [Bool.true_and] at hw2
      rw [runEvents_cons]
      have hrec := ih (stepEv s PoolEvent.post)
        (by show (0:Int) ≤ s.inflight + 1; omega)
        (by intro _; rfl)
        hw2
      rw [hrec]
      show s.fires + wavesCompleted (stepEv s PoolEvent.post) evs
        = s.fires + (0 + wavesCompleted (stepEv s PoolEvent.post) evs)
      omega
    | msgResult q =>
      have hw2p : (decide (0 < s.inflight) &&
          wellMatched (stepEv s (PoolEvent.msgResult q)) evs) = true := hw
      rw [Bool.and_eq_true, decide_eq_true_eq] at hw2p
      exact c3_completion_aux s (PoolEvent.msgResult q) evs rfl rfl hw2p.1 h1 hw2p.2 ih
    | msgError q =>
      have hw2p : (decide (0 < s.inflight) &&
          wellMatched (stepEv s (PoolEvent.msgError q)) evs) = true := hw
      rw [Bool.and_eq_true, decide_eq_true_eq] at hw2p
      exact c3_completion_aux s (PoolEvent.msgError q) evs rfl rfl hw2p.1 h1 hw2p.2 ih
    | unitFault i =>
      have hw2p : (decide (0 < s.inflight) &&
          wellMatched (stepEv s (PoolEvent.unitFault i)) evs) = true := hw
      rw [Bool.and_eq_true, decide_eq_true_eq] at hw2p
      exact c3_completion_aux s (PoolEvent.unitFault i) evs rfl rfl hw2p.1 h1 hw2p.2 ih

/-- Witness for C3 on the concrete scenario of the claim: three jobs posted
and drained fire `onAllComplete` once; a fourth job posted afterward and
drained fires it a second time, a total of exactly two firings. -/
theorem all_complete_fires_once_per_wave_witness :
    (runEvents (initState 2 4)
      [PoolEvent.post, PoolEvent.post, PoolEvent.post, PoolEvent.msgResult (some 0),
       PoolEvent.msgResult (some 1), PoolEvent.msgResult (some 2)]).fires = 1 ∧
    (runEvents (initState 2 4)
      [PoolEvent.post, PoolEvent.post, PoolEvent.post, PoolEvent.msgResult (some 0),
       PoolEvent.msgResult (some 1), PoolEvent.msgResult (some 2),
       PoolEvent.post, PoolEvent.msgResult (some 3)]).fires = 2 :=
  ⟨(all_complete_fires_once_per_wave (initState 2 4)
      [PoolEvent.post, PoolEvent.post, PoolEvent.post, PoolEvent.msgResult (some 0),
       PoolEvent.msgResult (some 1), PoolEvent.msgResult (some 2)]
      (by decide) (by decide) (by decide)).trans (by decide),
   (all_complete_fires_once_per_wave (initState 2 4)
      [PoolEvent.post, PoolEvent.post, PoolEvent.post, PoolEvent.msgResult (some 0),
       PoolEvent.msgResult (some 1), PoolEvent.msgResult (some 2),
       PoolEvent.post, PoolEvent.msgResult (some 3)]
      (by decide) (by decide) (by decide)).trans (by decide)⟩

/-- C7 counterexample: the claim says a faulted unit no longer receives
dispatches, but the `onerror` listener never removes the unit from
`this.workers` and `post` keeps cycling over the unchanged list. Concretely,
with two units, after posts to units 0 and 1 and a fatal fault of unit 1, the
workers list is unchanged and the next two posts dispatch to units 0 and then
1: the faulted unit receives a dispatch again. -/
theorem unit_fault_still_dispatched :
    (runEvents (initState 2 4)
      [PoolEvent.post, PoolEvent.post, PoolEvent.unitFault 1]).workers
      = (initState 2 4).workers ∧
    postTargets (runEvents (initState 2 4)
      [PoolEvent.post, PoolEvent.post, PoolEvent.unitFault 1])
      [PoolEvent.post, PoolEvent.post] = [0, 1] := by decide

/-- C7 amended: a unit fatal fault is reported via `onError` with no seq and
no replacement is spawned, and `inflight` is decremented once; however the
unit is not removed from the rotation: the workers list and the cursor are
untouched, so the faulted unit continues to receive dispatches. -/
theorem unit_fault_behavior (s : PoolState) (i : Nat) :
    (∃ rest, eventCalls s (PoolEvent.unitFault i) = CbCall.errCall none :: rest) ∧
    (stepEv s (PoolEvent.unitFault i)).workers = s.workers ∧
    (stepEv s (PoolEvent.unitFault i)).nextIndex = s.nextIndex ∧
    (stepEv s (PoolEvent.unitFault i)).inflight = s.inflight - 1 := by
  refine ⟨⟨completionCalls { s with inflight := s.inflight - 1 }, rfl⟩, ?_, ?_, ?_⟩
  · simp [stepEv, checkAllComplete_workers]
  · simp [stepEv, checkAllComplete_nextIndex]
  · simp [stepEv, checkAllComplete_inflight]

theorem notifyLoop_ok (dead : Nat → Bool) (ws : List WUnit) :
    ∀ i, notifyLoop dead i ws = Except.ok () := by
  induction ws with
  | nil => intro i; rfl
  | cons w ws ih =>
    intro i
    cases hsd : sendShutdown (dead i) with
    | ok u => simp [notifyLoop, hsd, ih]
    | error e => simp [notifyLoop, hsd, ih]

/-- C6: `close` with `drain = true` proceeds only once the polling loop of
`waitForCompletion` has exited, that is once `inflight > 0` fails, so under
the nonnegativity invariant it returns with `inflight = 0` (close itself never
changes the counter); for either drain value the state it returns has an
empty unit list and both initialization flags reset, so a later `init` will
rebuild the pool from scratch; and a failure sending the shutdown notice to
an already-dead unit is swallowed: the run returns `Except.ok` for every
pattern of dead units, and its result does not depend on that pattern. -/
theorem close_resets_pool (s : PoolState) (dead dead2 : Nat → Bool) (drain : Bool)
    (hdrain : drain = true → ¬ 0 < s.inflight ∧ 0 ≤ s.inflight) :
    ∃ s2, closeRun s dead = Except.ok s2 ∧
      s2.workers = [] ∧ s2.initDone = false ∧ s2.initPromiseSet = false ∧
      (drain = true → s2.inflight = 0) ∧
      closeRun s dead2 = closeRun s dead := by
  refine ⟨{ s with workers := [], initDone := false, initPromiseSet := false },
    ?_, rfl, rfl, rfl, ?_, ?_⟩
  · unfold closeRun
    rw [notifyLoop_ok]
  · intro hd
    obtain ⟨h1, h2⟩ := hdrain hd
    show s.inflight = 0
    omega
  · unfold closeRun
    rw [notifyLoop_ok, notifyLoop_ok]

/-- Witness for C6: a drained close of a two-unit idle pool in which the send
to unit 0 throws (the unit is already dead) still returns ok, resets the
state, and equals the close in which no send throws. -/
theorem close_resets_pool_witness :
    (true = true → ¬ (0:Int) < (initState 2 4).inflight ∧ (0:Int) ≤ (initState 2 4).inflight) ∧
    ∃ s2, closeRun (initState 2 4) (fun i => i == 0) = Except.ok s2 ∧
      s2.workers = [] ∧ s2.initDone = false ∧ s2.initPromiseSet = false ∧
      (true = true → s2.inflight = 0) ∧
      closeRun (initState 2 4) (fun _ => false) = closeRun (initState 2 4) (fun i => i == 0) :=
  ⟨by decide,
   close_resets_pool (initState 2 4) (fun i => i == 0) (fun _ => false) true (by decide)⟩

theorem freshInit_inv (W : Nat) : InitInv W freshInit :=
  ⟨fun _ => ⟨rfl, rfl⟩,
   fun k h => InitPhase.noConfusion h,
   fun h => InitPhase.noConfusion h,
   fun u hu => absurd hu (List.not_mem_nil u)⟩

theorem initStep_preserves (W : Nat) (v : InitView) (hv : InitInv W v) :
    ∀ ev, InitInv W (initStep W v ev) := by
  obtain ⟨hns, hip, hdone, hhand⟩ := hv
  intro ev
  cases ev with
  | call =>
    cases hph : v.phase with
    | notStarted =>
      simp only [initStep, hph]
      refine ⟨fun h => InitPhase.noConfusion h, ?_, fun h => InitPhase.noConfusion h, ?_⟩
      · intro k hk
        have hk0 : (0 : Nat) = k := by simpa using hk
        subst hk0
        refine ⟨by simp, ?_, Nat.zero_le W⟩
        have := (hns hph).2
        simpa using this
      · intro u hu
        simp at hu
    | inProgress k =>
      simp only [initStep, hph]
      exact ⟨hns, hip, hdone, hhand⟩
    | done =>
      simp only [initStep, hph]
      exact ⟨hns, hip, hdone, hhand⟩
  | stepCreate =>
    cases hph : v.phase with
    | notStarted =>
      simp only [initStep, hph]
      exact ⟨hns, hip, hdone, hhand⟩
    | inProgress k =>
      simp only [initStep, hph]
      by_cases hk : k < W
      · rw [if_pos hk]
        obtain ⟨hlen, htot, hle⟩ := hip k hph
        refine ⟨fun h => InitPhase.noConfusion h, ?_, fun h => InitPhase.noConfusion h, ?_⟩
        · intro k2 hk2
          have hk2e : k + 1 = k2 := by simpa using hk2
          refine ⟨?_, ?_, by omega⟩
          · simp [← hk2e, hlen]
          · simp [← hk2e, htot]
        · intro u hu
          rw [List.mem_append] at hu
          cases hu with
          | inl h => exact hhand u h
          | inr h =>
            have : u = (⟨true, true⟩ : WUnit) := by simpa using h
            rw [this]
            exact ⟨rfl, rfl⟩
      · rw [if_neg hk]
        exact ⟨hns, hip, hdone, hhand⟩
    | done =>
      simp only [initStep, hph]
      exact ⟨hns, hip, hdone, hhand⟩
  | finishBody =>
    cases hph : v.phase with
    | notStarted =>
      simp only [initStep, hph]
      exact ⟨hns, hip, hdone, hhand⟩
    | inProgress k =>
      simp only [initStep, hph]
      by_cases hk : k = W
      · rw [if_pos hk]
        obtain ⟨hlen, htot, hle⟩ := hip k hph
        refine ⟨fun h => InitPhase.noConfusion h, fun k2 hk2 => InitPhase.noConfusion hk2,
          fun _ => ⟨?_, ?_⟩, hhand⟩
        · show v.units.length = W
          omega
        · show v.totalCreated = W
          omega
      · rw [if_neg hk]
        exact ⟨hns, hip, hdone, hhand⟩
    | done =>
      simp only [initStep, hph]
      exact ⟨hns, hip, hdone, hhand⟩

theorem runInit_inv (W : Nat) (v : InitView) (hv : InitInv W v) (evs : List InitEvent) :
    InitInv W (runInit W v evs) := by
  induction evs generalizing v with
  | nil => exact hv
  | cons ev evs ih => exact ih (initStep W v ev) (initStep_preserves W v hv ev)

/-- C9: `init` is idempotent. Along any interleaving of init calls and body
progress from a fresh pool, the total number of `createWorker` calls over the
whole history never exceeds `W`; once initialization has completed, the pool
holds exactly one set of `W` units, each with both the message and the error
handler installed, exactly `W` units were ever created, and a further init
call leaves the state unchanged; and while an initialization body is in
progress, a concurrent init call also leaves the state unchanged, collapsing
onto the one in-progress initialization. -/
theorem init_idempotent (W : Nat) (evs : List InitEvent) :
    (runInit W freshInit evs).totalCreated ≤ W ∧
    ((runInit W freshInit evs).phase = InitPhase.done →
      (runInit W freshInit evs).units.length = W ∧
      (runInit W freshInit evs).totalCreated = W ∧
      (∀ u, u ∈ (runInit W freshInit evs).units →
        u.onmessageSet = true ∧ u.onerrorSet = true) ∧
      initStep W (runInit W freshInit evs) InitEvent.call = runInit W freshInit evs) ∧
    (∀ k, (runInit W freshInit evs).phase = InitPhase.inProgress k →
      initStep W (runInit W freshInit evs) InitEvent.call = runInit W freshInit evs) := by
  obtain ⟨hns, hip, hdone, hhand⟩ := runInit_inv W freshInit (freshInit_inv W) evs
  refine ⟨?_, ?_, ?_⟩
  · cases hph : (runInit W freshInit evs).phase with
    | notStarted => rw [(hns hph).2]; exact Nat.zero_le W
    | inProgress k => have := hip k hph; omega
    | done => have := hdone hph; omega
  · intro hph
    have hd := hdone hph
    exact ⟨hd.1, hd.2, hhand, by simp [initStep, hph]⟩
  · intro k hph
    simp [initStep, hph]

/-- Witness for C9: with two units, a trace of interleaved calls and body
progress reaches the completed phase with exactly two units and exactly two
creations in total. -/
theorem init_idempotent_witness :
    (runInit 2 freshInit [InitEvent.call, InitEvent.call, InitEvent.stepCreate,
      InitEvent.call, InitEvent.stepCreate, InitEvent.finishBody, InitEvent.call]).units.length
      = 2 ∧
    (runInit 2 freshInit [InitEvent.call, InitEvent.call, InitEvent.stepCreate,
      InitEvent.call, InitEvent.stepCreate, InitEvent.finishBody, InitEvent.call]).totalCreated
      = 2 :=
  ⟨((init_idempotent 2 [InitEvent.call, InitEvent.call, InitEvent.stepCreate,
      InitEvent.call, InitEvent.stepCreate, InitEvent.finishBody, InitEvent.call]).2.1
      (by decide)).1,
   ((init_idempotent 2 [InitEvent.call, InitEvent.call, InitEvent.stepCreate,
      InitEvent.call, InitEvent.stepCreate, InitEvent.finishBody, InitEvent.call]).2.1
      (by decide)).2.1⟩

/-- C5 counterexample: the claim says a defined handler value is sent back as
`{seq, payload: value}`, but the dispatch loop posts the resolved value
itself, verbatim. For the job message `{seq: 7, payload: 1}` and a handler
returning the bare number 42, the loop sends `42`, not the wrapped object the
specification sentence describes. -/
theorem worker_sends_value_verbatim_cex :
    handleMessage (dispatchMsg 7 (JVal.jnum 1)) (HRes.ret (JVal.jnum 42))
      = some (JVal.jnum 42) ∧
    handleMessage (dispatchMsg 7 (JVal.jnum 1)) (HRes.ret (JVal.jnum 42))
      ≠ handleMessageSpec (dispatchMsg 7 (JVal.jnum 1)) (HRes.ret (JVal.jnum 42)) := by
  refine ⟨rfl, ?_⟩
  intro h
  exact JVal.noConfusion (Option.some.inj h)

/-- C5 amended: for every inbound job message, a handler that yields a defined
value has that value sent back verbatim; a handler that fails produces
`{seq: data.seq, type: "ERROR", message}`; and a handler that resolves to no
value produces no reply at all. -/
theorem worker_reply_shapes (d v : JVal) (m : String) (hv : v.isUndefined = false) :
    handleMessage d (HRes.ret v) = some v ∧
    handleMessage d (HRes.fail m) = some (JVal.jobj
      [("seq", d.get "seq"), ("type", JVal.jstr "ERROR"), ("message", JVal.jstr m)]) ∧
    handleMessage d (HRes.ret JVal.jundefined) = none := by
  refine ⟨?_, rfl, rfl⟩
  show (if v.isUndefined then none else some v) = some v
  rw [hv]
  simp

/-- Witness for C5 amended: a handler returning the bare number 42 for the job
with seq 3 has exactly that value sent back. -/
theorem worker_reply_shapes_witness :
    (JVal.jnum 42).isUndefined = false ∧
    handleMessage (dispatchMsg 3 (JVal.jnum 0)) (HRes.ret (JVal.jnum 42))
      = some (JVal.jnum 42) :=
  ⟨rfl, (worker_reply_shapes (dispatchMsg 3 (JVal.jnum 0)) (JVal.jnum 42) "e" rfl).1⟩

/-- C10: for every inbound worker message not tagged ERROR, the coordinator
invokes `onResult` with the entire inbound message object verbatim as the
payload (not an unwrapped inner payload field), and with seq equal to the seq
field of the message when that field is defined and -1 when the message
carries no seq. -/
theorem result_payload_is_entire_message (d : JVal) (hne : isErrorTagged d = false) :
    ((d.get "seq").isUndefined = true → onmessageObs d = CbObs.resCall (JVal.jnum (-1)) d) ∧
    ((d.get "seq").isUndefined = false → onmessageObs d = CbObs.resCall (d.get "seq") d) := by
  constructor
  · intro hs
    simp [onmessageObs, hne, hs]
  · intro hs
    simp [onmessageObs, hne, hs]

/-- Witness for C10: the message `{seq: 3, payload: 6}` reaches `onResult`
with seq 3 and the whole message as payload. -/
theorem result_payload_is_entire_message_witness :
    isErrorTagged (JVal.jobj [("seq", JVal.jnum 3), ("payload", JVal.jnum 6)]) = false ∧
    onmessageObs (JVal.jobj [("seq", JVal.jnum 3), ("payload", JVal.jnum 6)])
      = CbObs.resCall (JVal.jnum 3)
          (JVal.jobj [("seq", JVal.jnum 3), ("payload", JVal.jnum 6)]) :=
  ⟨rfl,
   (result_payload_is_entire_message
     (JVal.jobj [("seq", JVal.jnum 3), ("payload", JVal.jnum 6)]) rfl).2 rfl⟩

/-- C8 counterexample: the claim says a synchronous failure raised by the
`onResult` callback is caught and redirected to `onError`, but the delivery
site evaluates the callback call before `Promise.resolve` is entered, so a
synchronous throw escapes the coordinator listener uncaught rather than
being redirected; likewise for `onAllComplete`. -/
theorem callback_sync_throw_escapes_cex :
    deliverResult 5 (CbBehavior.throwSync "boom") = FaultRoute.escaped "boom" ∧
    deliverResult 5 (CbBehavior.throwSync "boom")
      ≠ FaultRoute.redirected "boom" (some 5) ∧
    deliverAllComplete (CbBehavior.throwSync "boom") = FaultRoute.escaped "boom" ∧
    deliverAllComplete (CbBehavior.throwSync "boom")
      ≠ FaultRoute.redirected "boom" none := by decide

/-- C8 amended: a failure of a user callback that surfaces as a rejected
promise is caught and redirected to `onError` — with the seq of the result for
`onResult`, and with no seq for `onAllComplete` — and a callback that
completes raises nothing; a synchronous throw from the callback, however, is
not caught at this site and escapes the coordinator. -/
theorem callback_rejection_redirected (seq : Int) (e : String) :
    deliverResult seq (CbBehavior.retRejected e) = FaultRoute.redirected e (some seq) ∧
    deliverAllComplete (CbBehavior.retRejected e) = FaultRoute.redirected e none ∧
    deliverResult seq CbBehavior.retOk = FaultRoute.noFault ∧
    deliverResult seq (CbBehavior.throwSync e) = FaultRoute.escaped e :=
  ⟨rfl, rfl, rfl, rfl⟩

theorem workerReply_fail (f : Int → HRes) (pl : Int → JVal) (j : Int) (em : String)
    (hf : f j = HRes.fail em) :
    workerReply f pl j
      = some (JVal.jobj [("seq", JVal.jnum j), ("type", JVal.jstr "ERROR"),
          ("message", JVal.jstr em)]) := by
  unfold workerReply handleMessage
  rw [hf]
  rfl

theorem workerReply_normal (f : Int → HRes) (pl : Int → JVal) (j : Int)
    (hn : normalRet j (f j)) :
    ∃ w, workerReply f pl j = some w ∧ onmessageObs w = CbObs.resCall (JVal.jnum j) w := by
  cases hf : f j with
  | fail m =>
    rw [hf] at hn
    exact hn.elim
  | ret v =>
    rw [hf] at hn
    obtain ⟨h1, h2, h3⟩ := hn
    refine ⟨v, ?_, ?_⟩
    · unfold workerReply handleMessage
      rw [hf]
      show (if v.isUndefined then none else some v) = some v
      rw [h1]
      simp
    · simp [onmessageObs, h2, h3, JVal.isUndefined]

theorem onmessageObs_errObj (j : Int) (em : String) :
    ∃ msg, onmessageObs (JVal.jobj [("seq", JVal.jnum j), ("type", JVal.jstr "ERROR"),
      ("message", JVal.jstr em)]) = CbObs.errCall (JVal.jnum j) msg := by
  refine ⟨if (JVal.jstr em).truthy then JVal.jstr em else JVal.jstr "Worker error", ?_⟩
  have ht : isErrorTagged (JVal.jobj [("seq", JVal.jnum j), ("type", JVal.jstr "ERROR"),
      ("message", JVal.jstr em)]) = true := rfl
  have hs : (JVal.jobj [("seq", JVal.jnum j), ("type", JVal.jstr "ERROR"),
      ("message", JVal.jstr em)]).get "seq" = JVal.jnum j := rfl
  have hm : (JVal.jobj [("seq", JVal.jnum j), ("type", JVal.jstr "ERROR"),
      ("message", JVal.jstr em)]).get "message" = JVal.jstr em := rfl
  simp [onmessageObs, ht, hs, hm]

theorem countP_filterMap_obs (p : CbObs → Bool) (r : Int → Option JVal) (l : List Int) :
    ((l.filterMap r).map onmessageObs).countP p
      = (l.map (fun j => ((r j).toList.map onmessageObs).countP p)).sum := by
  induction l with
  | nil => rfl
  | cons j l ih =>
    cases hr : r j with
    | none => simpa [List.filterMap_cons, hr] using ih
    | some v =>
      simp [List.filterMap_cons, hr, List.countP_cons, ih]
      omega

theorem sum_map_ite_eq_countP (l : List Int) (q : Int → Bool) :
    (l.map (fun j => if q j then 1 else 0)).sum = l.countP q := by
  induction l with
  | nil => rfl
  | cons j l ih =>
    simp only [List.map_cons, List.sum_cons, List.countP_cons, ih]
    omega

theorem sum_map_zero_fn (l : List Int) : (l.map (fun _ => (0:Nat))).sum = 0 := by
  induction l with
  | nil => rfl
  | cons j l ih => simp [ih]

theorem filterMap_length_of_isSome (r : Int → Option JVal) (l : List Int)
    (h : ∀ j ∈ l, (r j).isSome = true) : (l.filterMap r).length = l.length := by
  induction l with
  | nil => rfl
  | cons j l ih =>
    have hj := h j (List.mem_cons_self j l)
    cases hr : r j with
    | none => rw [hr] at hj; exact Bool.noConfusion hj
    | some v =>
      have := ih (fun x hx => h x (List.mem_cons_of_mem j hx))
      simp [List.filterMap_cons, hr, this]

/-- C4: in a wave whose seqs are distinct and include 7, in which the user
handler for seq 7 fails and every other job completes normally, the
coordinator makes exactly one `onError` call carrying seq 7 and no `onResult`
call with seq 7; every job of the wave produces exactly one reply, so each
posted slot is released by exactly one inbound message, each decrementing
`inflight` once (the decrement per message is the completion event of the
pool semantics); and every other job completes normally: exactly one
`onResult` with its seq and no `onError` with its seq. -/
theorem handler_error_isolation (seqs : List Int) (f : Int → HRes) (pl : Int → JVal)
    (em : String) (hmem : (7:Int) ∈ seqs) (hnodup : seqs.Nodup)
    (h7 : f 7 = HRes.fail em)
    (hok : ∀ j ∈ seqs, j ≠ 7 → normalRet j (f j)) :
    (waveObs f pl seqs).countP (CbObs.isErrWithSeq 7) = 1 ∧
    (waveObs f pl seqs).countP (CbObs.isResWithSeq 7) = 0 ∧
    (seqs.filterMap (workerReply f pl)).length = seqs.length ∧
    (∀ j2, j2 ∈ seqs → j2 ≠ 7 →
      (waveObs f pl seqs).countP (CbObs.isResWithSeq j2) = 1 ∧
      (waveObs f pl seqs).countP (CbObs.isErrWithSeq j2) = 0) := by
  have hobs : ∀ j ∈ seqs, ∃ w, workerReply f pl j = some w ∧
      ((j = 7 ∧ ∃ msg, onmessageObs w = CbObs.errCall (JVal.jnum 7) msg) ∨
       (j ≠ 7 ∧ onmessageObs w = CbObs.resCall (JVal.jnum j) w)) := by
    intro j hj
    by_cases hj7 : j = 7
    · subst hj7
      obtain ⟨msg, hmsg⟩ := onmessageObs_errObj 7 em
      exact ⟨_, workerReply_fail f pl 7 em h7, Or.inl ⟨rfl, msg, hmsg⟩⟩
    · obtain ⟨w, hw, hwobs⟩ := workerReply_normal f pl j (hok j hj hj7)
      exact ⟨w, hw, Or.inr ⟨hj7, hwobs⟩⟩
  have hcontrib : ∀ p : CbObs → Bool, (waveObs f pl seqs).countP p
      = (seqs.map (fun j =>
          ((workerReply f pl j).toList.map onmessageObs).countP p)).sum :=
    fun p => countP_filterMap_obs p (workerReply f pl) seqs
  have hlen : (seqs.filterMap (workerReply f pl)).length = seqs.length := by
    refine filterMap_length_of_isSome _ _ ?_
    intro j hj
    obtain ⟨w, hw, hrest⟩ := hobs j hj
    rw [hw]
    rfl
  have gErr7 : ∀ j ∈ seqs,
      ((workerReply f pl j).toList.map onmessageObs).countP (CbObs.isErrWithSeq 7)
      = if j == 7 then 1 else 0 := by
    intro j hj
    obtain ⟨w, hw, hcase⟩ := hobs j hj
    rw [hw]
    rcases hcase with ⟨hj7, msg, he⟩ | ⟨hj7, he⟩
    · subst hj7
      simp [he, CbObs.isErrWithSeq]
    · simp [he, CbObs.isErrWithSeq, hj7]
  have gRes7 : ∀ j ∈ seqs,
      ((workerReply f pl j).toList.map onmessageObs).countP (CbObs.isResWithSeq 7)
      = 0 := by
    intro j hj
    obtain ⟨w, hw, hcase⟩ := hobs j hj
    rw [hw]
    rcases hcase with ⟨hj7, msg, he⟩ | ⟨hj7, he⟩
    · simp [he, CbObs.isResWithSeq]
    · simp [he, CbObs.isResWithSeq, hj7]
  have herr7 : (waveObs f pl seqs).countP (CbObs.isErrWithSeq 7) = 1 := by
    rw [hcontrib, List.map_congr_left gErr7,
      sum_map_ite_eq_countP seqs (fun j => j == 7)]
    show seqs.count 7 = 1
    exact List.count_eq_one_of_mem hnodup hmem
  have hres7 : (waveObs f pl seqs).countP (CbObs.isResWithSeq 7) = 0 := by
    rw [hcontrib, List.map_congr_left gRes7, sum_map_zero_fn]
  refine ⟨herr7, hres7, hlen, ?_⟩
  intro j2 hj2 hj2ne
  have h72 : ((7:Int) == j2) = false := beq_eq_false_iff_ne.mpr (fun h => hj2ne h.symm)
  have gResJ : ∀ j ∈ seqs,
      ((workerReply f pl j).toList.map onmessageObs).countP (CbObs.isResWithSeq j2)
      = if j == j2 then 1 else 0 := by
    intro j hj
    obtain ⟨w, hw, hcase⟩ := hobs j hj
    rw [hw]
    rcases hcase with ⟨hj7, msg, he⟩ | ⟨hj7, he⟩
    · subst hj7
      simp [he, CbObs.isResWithSeq, h72]
    · simp [he, CbObs.isResWithSeq, List.countP_cons, beq_iff_eq]
  have gErrJ : ∀ j ∈ seqs,
      ((workerReply f pl j).toList.map onmessageObs).countP (CbObs.isErrWithSeq j2)
      = 0 := by
    intro j hj
    obtain ⟨w, hw, hcase⟩ := hobs j hj
    rw [hw]
    rcases hcase with ⟨hj7, msg, he⟩ | ⟨hj7, he⟩
    · subst hj7
      simp [he, CbObs.isErrWithSeq, h72]
    · simp [he, CbObs.isErrWithSeq]
  constructor
  · rw [hcontrib, List.map_congr_left gResJ,
      sum_map_ite_eq_countP seqs (fun j => j == j2)]
    show seqs.count j2 = 1
    exact List.count_eq_one_of_mem hnodup hj2
  · rw [hcontrib, List.map_congr_left gErrJ, sum_map_zero_fn]

/-- Witness for C4: the wave with seqs 5, 7, 9, a handler that fails for 7 and
returns a well-formed result for the others, yields exactly one onError with
seq 7 and no onResult with seq 7, and job 5 completes normally. -/
theorem handler_error_isolation_witness :
    (waveObs
      (fun j => if j = 7 then HRes.fail "boom"
        else HRes.ret (JVal.jobj [("seq", JVal.jnum j), ("payload", JVal.jnum j)]))
      (fun _ => JVal.jnum 0) [5, 7, 9]).countP (CbObs.isErrWithSeq 7) = 1 ∧
    (waveObs
      (fun j => if j = 7 then HRes.fail "boom"
        else HRes.ret (JVal.jobj [("seq", JVal.jnum j), ("payload", JVal.jnum j)]))
      (fun _ => JVal.jnum 0) [5, 7, 9]).countP (CbObs.isResWithSeq 7) = 0 ∧
    (waveObs
      (fun j => if j = 7 then HRes.fail "boom"
        else HRes.ret (JVal.jobj [("seq", JVal.jnum j), ("payload", JVal.jnum j)]))
      (fun _ => JVal.jnum 0) [5, 7, 9]).countP (CbObs.isResWithSeq 5) = 1 :=
  have h := handler_error_isolation [5, 7, 9]
    (fun j => if j = 7 then HRes.fail "boom"
      else HRes.ret (JVal.jobj [("seq", JVal.jnum j), ("payload", JVal.jnum j)]))
    (fun _ => JVal.jnum 0) "boom" (by decide) (by decide) rfl
    (by
      intro j hj hne
      have hj3 : j = 5 ∨ j = 7 ∨ j = 9 := by simpa using hj
      rcases hj3 with rfl | rfl | rfl
      · exact ⟨rfl, rfl, rfl⟩
      · exact absurd rfl hne
      · exact ⟨rfl, rfl, rfl⟩)
  ⟨h.1, h.2.1, (h.2.2.2 5 (by decide) (by decide)).1⟩

end CrossWorkers
